import Mathlib

/-!
# PhishGuard scoring and explanation engine: a shallow embedding

This file embeds the scoring core of the PhishGuard repository: lexical
feature extraction from a URL string, gradient-boosted tree-ensemble
inference, exact additive (Shapley-style) feature attribution, the
rule-based fallback scorer, the reputation-fusion policy, the explanation
formatter, and the frontend risk-level classifier from
`src/components/PhishingDetector.jsx`.  The backend `app.py` itself is not
part of the repository snapshot, so those components are modelled from the
specification's component contracts (each such definition says so in its
doc comment); `getRiskLevel` is translated directly from the JSX source.
-/

set_option maxHeartbeats 1000000

namespace PhishGuard

/-! ## Data model -/

/-- Modelled from the spec: the ordered 5-field numeric feature vector
(`url_length`, `dot_count`, `hyphen_count`, `has_at_symbol`, `has_https`)
extracted from a URL; `app.py`, which builds it, is not under `src/`. -/
structure FeatureVector where
  url_length : Nat
  dot_count : Nat
  hyphen_count : Nat
  has_at_symbol : Nat
  has_https : Nat
deriving DecidableEq

/-- The feature value at a feature index, in the fixed declaration order
shared by extraction, inference and attribution. -/
def FeatureVector.get (fv : FeatureVector) (i : Fin 5) : ℚ :=
  match i with
  | ⟨0, _⟩ => fv.url_length
  | ⟨1, _⟩ => fv.dot_count
  | ⟨2, _⟩ => fv.hyphen_count
  | ⟨3, _⟩ => fv.has_at_symbol
  | ⟨4, _⟩ => fv.has_https
  | ⟨n + 5, h⟩ => absurd h (by omega)

/-! ## FeatureExtractor -/

/-- The eight characters of the lowercased scheme marker `https://`. -/
def httpsChars : List Char := ['h', 't', 't', 'p', 's', ':', '/', '/']

/-- Modelled from the spec: `app.py`'s feature extraction is not under
`src/`; §4.1 gives the extraction rules (raw character count, `.` count,
`-` count, `@` membership, case-insensitive `https://` scheme marker). -/
def extract (url : String) : FeatureVector where
  url_length := url.data.length
  dot_count := url.data.count '.'
  hyphen_count := url.data.count '-'
  has_at_symbol := if '@' ∈ url.data then 1 else 0
  has_https := if (url.data.map Char.toLower).take 8 = httpsChars then 1 else 0

/-! ## TreeEnsembleModel -/

/-- Modelled from the spec: a binary decision tree of the serialized
ensemble; internal nodes carry a feature index, a split threshold and a
cover weight, leaves carry a value and a cover weight.  The serialized
`phishing_model.json` and its loader in `app.py` are not under `src/`. -/
inductive Tree where
  | leaf (value : ℚ) (cover : ℚ)
  | node (featIdx : Fin 5) (threshold : ℚ) (left : Tree) (right : Tree) (cover : ℚ)

/-- The cover weight recorded at a tree's root node. -/
def Tree.cover : Tree → ℚ
  | .leaf _ c => c
  | .node _ _ _ _ c => c

/-- Single-tree evaluation: route left when the designated feature value is
strictly less than the split threshold, else right, down to a leaf. -/
def Tree.eval (fv : FeatureVector) : Tree → ℚ
  | .leaf v _ => v
  | .node i th l r _ => if fv.get i < th then l.eval fv else r.eval fv

/-- The cover-weighted expectation of a tree's leaf value (the value seen
when no feature is revealed): at each internal node average the two
subtrees by their cover weights. -/
def Tree.expect : Tree → ℚ
  | .leaf v _ => v
  | .node _ _ l r _ =>
      (l.cover * l.expect + r.cover * r.expect) / (l.cover + r.cover)

/-- Modelled from the spec: the expected leaf value of a tree conditioned
on knowing exactly the features in `S` — known features route by the split,
unknown ones average the children by cover weight (§4.3). -/
def Tree.condExp (fv : FeatureVector) (S : Finset (Fin 5)) : Tree → ℚ
  | .leaf v _ => v
  | .node i th l r _ =>
      if i ∈ S then
        (if fv.get i < th then l.condExp fv S else r.condExp fv S)
      else
        (l.cover * l.condExp fv S + r.cover * r.condExp fv S) /
          (l.cover + r.cover)

/-- The ensemble's link function selector. -/
inductive Link where
  | identity
  | logistic
deriving DecidableEq

/-- Modelled from the spec: an ordered forest of decision trees plus a
base-value scalar and a link function (§3), as deserialized by `app.py`. -/
structure Ensemble where
  trees : List Tree
  base : ℚ
  link : Link

/-- The raw (pre-link) margin: accumulate each tree's reached leaf value
onto the base value. -/
def Ensemble.margin (e : Ensemble) (fv : FeatureVector) : ℚ :=
  e.trees.foldl (fun acc t => acc + t.eval fv) e.base

/-- The standard logistic sigmoid over the reals. -/
noncomputable def sigmoid (x : ℝ) : ℝ := 1 / (1 + Real.exp (-x))

/-- Modelled from the spec: the transformed model output — the sigmoid of
the margin under the logistic link, the margin itself under identity. -/
noncomputable def Ensemble.probability (e : Ensemble) (fv : FeatureVector) : ℝ :=
  match e.link with
  | .logistic => sigmoid (e.margin fv)
  | .identity => (e.margin fv : ℝ)

/-- Truncation toward zero, as Python's `int()` applies to a float. -/
noncomputable def pythonInt (x : ℝ) : ℤ := if 0 ≤ x then ⌊x⌋ else ⌈x⌉

/-- Modelled from the spec: `risk_score = int(phishing_probability * 100)`
in `analyze_url` (quoted in `src/XGBOOST_MODEL_INTEGRATION.md`). -/
noncomputable def modelRiskScore (e : Ensemble) (fv : FeatureVector) : ℤ :=
  pythonInt (e.probability fv * 100)

/-! ## AttributionEngine -/

/-- The features revealed before `i` under the ordering `σ` (the set of
features placed at an earlier position). -/
def predSet (σ : Equiv.Perm (Fin 5)) (i : Fin 5) : Finset (Fin 5) :=
  Finset.univ.filter (fun j => σ j < σ i)

/-- The features placed at a position below `m` under the ordering `σ`. -/
def upToSet (σ : Equiv.Perm (Fin 5)) (m : ℕ) : Finset (Fin 5) :=
  Finset.univ.filter (fun j => (σ j : ℕ) < m)

/-- Modelled from the spec: the Shapley value of feature `i` for the
coalition game `v` — the marginal gain of revealing `i`, averaged over all
`5! = 120` orderings in which the remaining features are revealed (§4.3). -/
def shapley (v : Finset (Fin 5) → ℚ) (i : Fin 5) : ℚ :=
  (∑ σ : Equiv.Perm (Fin 5), (v (insert i (predSet σ i)) - v (predSet σ i))) / 120

/-- Per-tree contribution of feature `i`: the Shapley value of the tree's
cover-weighted conditional-expectation game at the given feature vector. -/
def Tree.phi (fv : FeatureVector) (t : Tree) (i : Fin 5) : ℚ :=
  shapley (fun S => t.condExp fv S) i

/-- Modelled from the spec: the AttributionEngine's per-feature
contribution — each tree's exact Shapley contribution, summed across the
forest. -/
def Ensemble.contributions (e : Ensemble) (fv : FeatureVector) (i : Fin 5) : ℚ :=
  (e.trees.map (fun t => t.phi fv i)).sum

/-- Modelled from the spec: the explainer's base value — the expected
ensemble output when no feature is revealed (each tree's cover-weighted
expectation, plus the ensemble bias). -/
def Ensemble.baseValue (e : Ensemble) : ℚ :=
  (e.trees.map Tree.expect).sum + e.base

/-! ## FallbackScorer -/

/-- Modelled from the spec: `app.py`'s rule-based fallback analysis is not
under `src/`; §4.4 gives the accumulation rules — low base risk, a fixed
increment for a long URL, per-unit increments for dots and hyphens beyond
small baselines, a large fixed increment for `@`, a decrement when HTTPS is
used (and an increment when it is not), clamped to `[0, 100]`, each rule
emitting a reason string. -/
def FallbackScorer.score (fv : FeatureVector) : ℚ × List String :=
  let lenPart : ℚ × List String :=
    if fv.url_length > 75 then (15, ["URL is unusually long"]) else (0, [])
  let dotPart : ℚ × List String :=
    if fv.dot_count > 3 then
      (5 * ((fv.dot_count : ℚ) - 3), ["URL contains many dots"])
    else (0, [])
  let hyphenPart : ℚ × List String :=
    if fv.hyphen_count > 2 then
      (5 * ((fv.hyphen_count : ℚ) - 2), ["URL contains many hyphens"])
    else (0, [])
  let atPart : ℚ × List String :=
    if fv.has_at_symbol = 1 then (25, ["URL contains an @ symbol"]) else (0, [])
  let httpsPart : ℚ × List String :=
    if fv.has_https = 1 then (-10, ["URL uses HTTPS"])
    else (10, ["URL does not use HTTPS"])
  let raw : ℚ := 10 + lenPart.1 + dotPart.1 + hyphenPart.1 + atPart.1 + httpsPart.1
  (max 0 (min 100 raw),
    lenPart.2 ++ dotPart.2 ++ hyphenPart.2 ++ atPart.2 ++ httpsPart.2)

/-! ## ReputationFuser -/

/-- The tri-state reputation verdict of the external Safe Browsing check. -/
inductive Verdict where
  | clean
  | flagged
  | unknown
deriving DecidableEq

/-- Modelled from the spec: the fusion policy of §4.5 — a `flagged`
external verdict forces the fixed critical value 95 regardless of the model
score, while `clean` and `unknown` leave the model score unchanged. -/
def fuse (modelScore : ℚ) (v : Verdict) : ℚ :=
  match v with
  | .flagged => 95
  | .clean => modelScore
  | .unknown => modelScore

/-! ## ExplanationFormatter -/

/-- One formatted explanation entry: feature index, raw feature value,
signed contribution and relative-impact percentage. -/
structure ExplEntry where
  idx : Fin 5
  value : ℚ
  contribution : ℚ
  impactPct : ℚ
deriving DecidableEq

/-- The sort key: descending absolute contribution magnitude, ties broken
by the fixed feature declaration order. -/
def entryLE (a b : ExplEntry) : Bool :=
  |b.contribution| < |a.contribution| ∨
    (|a.contribution| = |b.contribution| ∧ a.idx ≤ b.idx)

/-- Modelled from the spec: the explanation formatter of §4.6 — one entry
per feature, relative impact `|c| / Σ|c| * 100` (all zero when every
contribution is zero), sorted by descending absolute contribution with ties
broken by declaration order. -/
def format (fv : FeatureVector) (c : Fin 5 → ℚ) : List ExplEntry :=
  ((List.finRange 5).map (fun i =>
    { idx := i, value := fv.get i, contribution := c i,
      impactPct := if (∑ j, |c j|) = 0 then 0
        else |c i| / (∑ j, |c j|) * 100 : ExplEntry })).mergeSort entryLE

/-! ## Scoring entry point -/

/-- The outcome of the external reputation lookup as the transport layer
hands it over: a verdict, or a timeout, or a transport failure. -/
inductive RepOutcome where
  | verdict (v : Verdict)
  | timeout
  | transportError
deriving DecidableEq

/-- Modelled from the spec: a reputation timeout or transport failure
degrades to the `unknown` verdict rather than failing the request (§5). -/
def degradeRep : RepOutcome → Verdict
  | .verdict v => v
  | .timeout => .unknown
  | .transportError => .unknown

/-- The one error `scoreUrl` itself raises. -/
inductive ScoreError where
  | invalidInput
deriving DecidableEq

/-- The final per-request result: fused score, safety label, the verdict
echoed through, and the pre-fusion model score. -/
structure RiskResult where
  finalScore : ℚ
  isSafe : Bool
  verdict : Verdict
  modelScore : ℚ

/-- Modelled from the spec: the pre-fusion score — the trained model's
truncated scaled probability when an ensemble is loaded, the fallback
scorer's output when the load never succeeded. -/
noncomputable def modelScoreOf (model : Option Ensemble) (fv : FeatureVector) : ℚ :=
  match model with
  | some e => ((modelRiskScore e fv : ℤ) : ℚ)
  | none => (FallbackScorer.score fv).1

/-- Modelled from the spec: the scoring entry point `scoreUrl` (§6) —
fails only on an empty URL, otherwise extracts features, scores through the
loaded ensemble or transparently through the fallback scorer, degrades the
reputation outcome and fuses. -/
noncomputable def scoreUrl (model : Option Ensemble) (rep : RepOutcome)
    (url : String) : Except ScoreError RiskResult :=
  if url = "" then .error .invalidInput
  else
    let fv := extract url
    let ms := modelScoreOf model fv
    let v := degradeRep rep
    let fs := fuse ms v
    .ok ⟨fs, decide (fs < 50), v, ms⟩

/-! ## Frontend risk-level classifier (`src/components/PhishingDetector.jsx`) -/

/-- The four risk labels of the frontend classifier. -/
inductive RiskLevel where
  | low
  | medium
  | high
  | critical
deriving DecidableEq

/-- Translated from `getRiskLevel` in `src/components/PhishingDetector.jsx`:
`score < 20 → Low`, `score < 40 → Medium`, `score < 70 → High`, else
`Critical`. -/
def getRiskLevel (score : ℚ) : RiskLevel :=
  if score < 20 then .low
  else if score < 40 then .medium
  else if score < 70 then .high
  else .critical

/-! ## Helper lemmas -/

lemma sigmoid_mem_Ioo (x : ℝ) : sigmoid x ∈ Set.Ioo (0 : ℝ) 1 := by
  unfold sigmoid
  constructor
  · positivity
  · rw [div_lt_one (by positivity)]
    linarith [Real.exp_pos (-x)]

lemma sigmoid_zero : sigmoid 0 = 1 / 2 := by
  unfold sigmoid
  rw [neg_zero, Real.exp_zero]
  norm_num

lemma probability_mem_Ioo (e : Ensemble) (fv : FeatureVector)
    (h : e.link = .logistic) : e.probability fv ∈ Set.Ioo (0 : ℝ) 1 := by
  obtain ⟨ts, b, lk⟩ := e
  cases lk with
  | identity => exact absurd h (by simp)
  | logistic => exact sigmoid_mem_Ioo _

lemma foldl_add_eval (fv : FeatureVector) :
    ∀ (l : List Tree) (b : ℚ),
      l.foldl (fun acc t => acc + t.eval fv) b
        = (l.map (fun t => t.eval fv)).sum + b := by
  intro l
  induction l with
  | nil => intro b; simp
  | cons hd tl ih =>
      intro b
      simp only [List.foldl_cons, List.map_cons, List.sum_cons, ih]
      ring

lemma margin_eq_sum (e : Ensemble) (fv : FeatureVector) :
    e.margin fv = (e.trees.map (fun t => t.eval fv)).sum + e.base := by
  unfold Ensemble.margin
  rw [foldl_add_eval]

/-! ## C10: the frontend risk-level classifier -/

/-- C10: `getRiskLevel` is total and deterministic on numeric scores and
partitions them into exactly one of four labels — `Low` iff `score < 20`,
`Medium` iff `20 ≤ score < 40`, `High` iff `40 ≤ score < 70`, `Critical`
iff `score ≥ 70`; in particular the safety-boundary score 50 is `High`. -/
theorem getRiskLevel_spec :
    (∀ s : ℚ,
      (getRiskLevel s = .low ↔ s < 20)
      ∧ (getRiskLevel s = .medium ↔ 20 ≤ s ∧ s < 40)
      ∧ (getRiskLevel s = .high ↔ 40 ≤ s ∧ s < 70)
      ∧ (getRiskLevel s = .critical ↔ 70 ≤ s))
    ∧ getRiskLevel 50 = .high := by
  constructor
  · intro s
    unfold getRiskLevel
    split_ifs with h1 h2 h3 <;>
      simp only [not_lt] at * <;>
        refine ⟨?_, ?_, ?_, ?_⟩ <;>
          constructor <;> intro h <;>
            (try simp_all) <;> linarith
  · norm_num [getRiskLevel]

/-! ## C2: the fusion policy -/

/-- C2 counterexample: at `modelScore = 100` (inside `[0, 100]`) the claimed
monotonicity `fuse(modelScore, flagged) ≥ fuse(modelScore, clean)` fails:
the flagged score is the fixed 95, the clean score is 100. -/
theorem fuse_monotonicity_counterexample :
    fuse 100 .flagged = 95 ∧ fuse 100 .clean = 100 ∧
      ¬ fuse 100 .clean ≤ fuse 100 .flagged := by
  refine ⟨rfl, rfl, ?_⟩
  norm_num [fuse]

/-- C2 amended: for every `modelScore` in `[0, 100]`, `fuse` forces the
fixed critical value 95 on a flagged verdict and leaves the score unchanged
on clean and unknown; the dominance inequalities hold whenever
`modelScore ≤ 95` (they fail above 95, see the counterexample). -/
theorem fuse_policy_amended (s : ℚ) (h0 : 0 ≤ s) (h1 : s ≤ 100) :
    fuse s .flagged = 95 ∧ fuse s .unknown = s ∧ fuse s .clean = s ∧
      (s ≤ 95 → fuse s .clean ≤ fuse s .flagged
        ∧ fuse s .unknown ≤ fuse s .flagged) := by
  refine ⟨rfl, rfl, rfl, fun h => ⟨?_, ?_⟩⟩ <;> simpa [fuse]

/-- C2 witness: the amended fusion policy at the concrete score 50. -/
theorem fuse_policy_amended_witness :
    fuse 50 .flagged = 95 ∧ fuse 50 .unknown = 50 ∧ fuse 50 .clean = 50 ∧
      fuse 50 .clean ≤ fuse 50 .flagged := by
  obtain ⟨a, b, c, d⟩ := fuse_policy_amended 50 (by norm_num) (by norm_num)
  exact ⟨a, b, c, (d (by norm_num)).1⟩

/-! ## C4: the safe-URL extraction scenario -/

/-- C4 counterexample: on `https://www.google.com` the extractor returns
`url_length = 22` (the string has 22 characters), not the 21 the claim
states. -/
theorem extract_google_counterexample :
    (extract "https://www.google.com").url_length ≠ 21 := by decide

/-- C4 amended: `extract "https://www.google.com"` returns
`url_length = 22, dot_count = 2, hyphen_count = 0, has_at_symbol = 0,
has_https = 1`. -/
theorem extract_google_amended :
    extract "https://www.google.com" = ⟨22, 2, 0, 0, 1⟩ := by decide

/-! ## C7: the fallback scorer -/

/-- C7: for every feature vector the fallback scorer returns a score in
`[0, 100]` and a non-empty list of reason strings. -/
theorem fallback_score_spec :
    ∀ fv : FeatureVector,
      0 ≤ (FallbackScorer.score fv).1
      ∧ (FallbackScorer.score fv).1 ≤ 100
      ∧ (FallbackScorer.score fv).2 ≠ [] := by
  intro fv
  unfold FallbackScorer.score
  refine ⟨le_max_left 0 _, max_le (by norm_num) (min_le_left _ _), ?_⟩
  dsimp only
  split_ifs <;> simp

/-! ## C3: the feature extractor -/

/-- C3: `extract` is total on all strings (the empty string yields length
0, zero counts, no-https) and returns exactly the raw character count, the
`.` count, the `-` count, `1` iff the string contains `@`, and `1` iff the
string begins with the case-insensitive marker `https://`. -/
theorem extract_spec :
    ∀ url : String,
      (extract url).url_length = url.data.length
      ∧ (extract url).dot_count = url.data.count '.'
      ∧ (extract url).hyphen_count = url.data.count '-'
      ∧ ((extract url).has_at_symbol = 1 ↔ '@' ∈ url.data)
      ∧ ((extract url).has_https = 1
          ↔ ∃ t, httpsChars ++ t = url.data.map Char.toLower)
      ∧ extract "" = ⟨0, 0, 0, 0, 0⟩ := by
  intro url
  refine ⟨rfl, rfl, rfl, ?_, ?_, by decide⟩
  · by_cases h : '@' ∈ url.data <;> simp [extract, h]
  · by_cases h : (url.data.map Char.toLower).take 8 = httpsChars
    · have hex : ∃ t, httpsChars ++ t = url.data.map Char.toLower :=
        ⟨(url.data.map Char.toLower).drop 8, by
          conv_rhs => rw [← List.take_append_drop 8 (url.data.map Char.toLower)]
          rw [h]⟩
      simp [extract, h, hex]
    · simp only [extract, h, if_false]
      constructor
      · intro h0
        exact absurd h0 (by norm_num)
      · rintro ⟨t, ht⟩
        exact absurd (by rw [← ht]; exact List.take_left httpsChars t) h

/-! ## C6: ensemble inference -/

/-- C6: `predict` routes left at an internal node iff the designated
feature value is strictly less than the split threshold, returns the margin
as the sum of all reached leaf values plus the base value, applies the
sigmoid under the logistic link so the probability lies in `(0, 1)`, and on
the empty ensemble returns the base value unchanged (probability `1/2`
under logistic link with zero base). -/
theorem predict_spec :
    (∀ (fv : FeatureVector) (i : Fin 5) (th : ℚ) (l r : Tree) (c : ℚ),
        Tree.eval fv (.node i th l r c)
          = if fv.get i < th then l.eval fv else r.eval fv)
    ∧ (∀ (e : Ensemble) (fv : FeatureVector),
        e.margin fv = (e.trees.map (fun t => t.eval fv)).sum + e.base)
    ∧ (∀ (e : Ensemble) (fv : FeatureVector),
        e.link = .logistic → e.probability fv ∈ Set.Ioo (0 : ℝ) 1)
    ∧ (∀ (b : ℚ) (lk : Link) (fv : FeatureVector),
        (Ensemble.mk [] b lk).margin fv = b)
    ∧ (∀ fv : FeatureVector,
        (Ensemble.mk [] 0 .logistic).probability fv = 1 / 2) := by
  refine ⟨fun fv i th l r c => rfl, margin_eq_sum, probability_mem_Ioo,
    fun b lk fv => rfl, fun fv => ?_⟩
  show sigmoid (((Ensemble.mk [] (0 : ℚ) .logistic).margin fv : ℚ) : ℝ) = 1 / 2
  have hm : (Ensemble.mk [] (0 : ℚ) .logistic).margin fv = 0 := rfl
  rw [hm, Rat.cast_zero, sigmoid_zero]

/-! ## C9: the model-path risk score -/

/-- C9: with the trained model loaded the model-path risk score is
`int(phishing_probability * 100)`, and since the logistic probability lies
in `(0, 1)` this score is an integer in `[0, 99]` — the model path alone
never yields 100. -/
theorem modelRiskScore_range (e : Ensemble) (fv : FeatureVector)
    (h : e.link = .logistic) :
    0 ≤ modelRiskScore e fv ∧ modelRiskScore e fv ≤ 99 := by
  obtain ⟨hp0, hp1⟩ := probability_mem_Ioo e fv h
  have hx0 : (0 : ℝ) ≤ e.probability fv * 100 := by linarith
  have hx1 : e.probability fv * 100 < 100 := by linarith
  unfold modelRiskScore pythonInt
  rw [if_pos hx0]
  constructor
  · exact Int.floor_nonneg.mpr hx0
  · have : ⌊e.probability fv * 100⌋ < 100 := by
      rw [Int.floor_lt]
      exact_mod_cast hx1
    omega

/-- C9 witness: the bound applied to the concrete empty logistic ensemble
and the empty-URL feature vector. -/
theorem modelRiskScore_range_witness :
    0 ≤ modelRiskScore ⟨[], 0, .logistic⟩ (extract "")
      ∧ modelRiskScore ⟨[], 0, .logistic⟩ (extract "") ≤ 99 :=
  modelRiskScore_range ⟨[], 0, .logistic⟩ (extract "") rfl

/-! ## C1: exactness of the attribution -/

lemma predSet_eq_upToSet (σ : Equiv.Perm (Fin 5)) (i : Fin 5) :
    predSet σ i = upToSet σ (σ i) := by
  ext j
  simp only [predSet, upToSet, Finset.mem_filter, Finset.mem_univ, true_and,
    Fin.lt_def]

lemma insert_predSet (σ : Equiv.Perm (Fin 5)) (i : Fin 5) :
    insert i (predSet σ i) = upToSet σ ((σ i : ℕ) + 1) := by
  ext j
  simp only [Finset.mem_insert, predSet, upToSet, Finset.mem_filter,
    Finset.mem_univ, true_and, Fin.lt_def, Nat.lt_succ_iff_lt_or_eq]
  constructor
  · rintro (rfl | h)
    · exact Or.inr rfl
    · exact Or.inl h
  · rintro (h | h)
    · exact Or.inr h
    · exact Or.inl (σ.injective (Fin.val_injective h))

lemma upToSet_zero (σ : Equiv.Perm (Fin 5)) : upToSet σ 0 = ∅ := by
  ext j
  simp [upToSet]

lemma upToSet_five (σ : Equiv.Perm (Fin 5)) : upToSet σ 5 = Finset.univ := by
  ext j
  simp [upToSet, (σ j).isLt]

lemma marg_telescope (v : Finset (Fin 5) → ℚ) (σ : Equiv.Perm (Fin 5)) :
    ∑ i : Fin 5, (v (insert i (predSet σ i)) - v (predSet σ i))
      = v Finset.univ - v ∅ := by
  calc ∑ i : Fin 5, (v (insert i (predSet σ i)) - v (predSet σ i))
      = ∑ i : Fin 5,
          (fun k : Fin 5 => v (upToSet σ ((k : ℕ) + 1)) - v (upToSet σ (k : ℕ)))
            (σ i) := by
        refine Finset.sum_congr rfl fun i _ => ?_
        rw [insert_predSet, predSet_eq_upToSet]
    _ = ∑ k : Fin 5, (v (upToSet σ ((k : ℕ) + 1)) - v (upToSet σ (k : ℕ))) :=
        Equiv.sum_comp σ
          (fun k : Fin 5 => v (upToSet σ ((k : ℕ) + 1)) - v (upToSet σ (k : ℕ)))
    _ = ∑ m ∈ Finset.range 5, (v (upToSet σ (m + 1)) - v (upToSet σ m)) :=
        Fin.sum_univ_eq_sum_range (fun m => v (upToSet σ (m + 1)) - v (upToSet σ m)) 5
    _ = v (upToSet σ 5) - v (upToSet σ 0) :=
        Finset.sum_range_sub (fun m => v (upToSet σ m)) 5
    _ = v Finset.univ - v ∅ := by rw [upToSet_zero, upToSet_five]

lemma shapley_efficiency (v : Finset (Fin 5) → ℚ) :
    ∑ i : Fin 5, shapley v i = v Finset.univ - v ∅ := by
  unfold shapley
  rw [← Finset.sum_div, Finset.sum_comm]
  rw [Finset.sum_congr rfl fun σ _ => marg_telescope v σ, Finset.sum_const]
  have hcard : (Finset.univ : Finset (Equiv.Perm (Fin 5))).card = 120 := by
    rw [Finset.card_univ, Fintype.card_perm, Fintype.card_fin]
    decide
  rw [hcard, nsmul_eq_mul]
  field_simp

lemma condExp_univ (fv : FeatureVector) (t : Tree) :
    t.condExp fv Finset.univ = t.eval fv := by
  induction t with
  | leaf v c => rfl
  | node i th l r c ihl ihr => simp [Tree.condExp, Tree.eval, ihl, ihr]

lemma condExp_empty (fv : FeatureVector) (t : Tree) :
    t.condExp fv ∅ = t.expect := by
  induction t with
  | leaf v c => rfl
  | node i th l r c ihl ihr => simp [Tree.condExp, Tree.expect, ihl, ihr]

lemma tree_phi_sum (fv : FeatureVector) (t : Tree) :
    ∑ i : Fin 5, t.phi fv i = t.eval fv - t.expect := by
  unfold Tree.phi
  rw [shapley_efficiency, condExp_univ, condExp_empty]

lemma list_sum_fin_comm (l : List Tree) (g : Fin 5 → Tree → ℚ) :
    ∑ i : Fin 5, (l.map (g i)).sum = (l.map (fun t => ∑ i : Fin 5, g i t)).sum := by
  induction l with
  | nil => simp
  | cons hd tl ih => simp [Finset.sum_add_distrib, ih]

lemma list_sum_map_sub (l : List Tree) (f g : Tree → ℚ) :
    (l.map (fun t => f t - g t)).sum = (l.map f).sum - (l.map g).sum := by
  induction l with
  | nil => simp
  | cons hd tl ih =>
      simp only [List.map_cons, List.sum_cons, ih]
      ring

/-- C1: for every structurally valid ensemble and feature vector, the
AttributionEngine's per-feature contributions satisfy
`sum(contributions) + base_value = raw_margin` exactly (here over `ℚ`, so
with no tolerance at all). -/
theorem attribution_exact :
    ∀ (e : Ensemble) (fv : FeatureVector),
      (∑ i : Fin 5, e.contributions fv i) + e.baseValue = e.margin fv := by
  intro e fv
  unfold Ensemble.contributions Ensemble.baseValue
  rw [list_sum_fin_comm]
  have hsum : (e.trees.map (fun t => ∑ i : Fin 5, t.phi fv i)).sum
      = (e.trees.map (fun t => t.eval fv)).sum - (e.trees.map Tree.expect).sum := by
    rw [← list_sum_map_sub]
    exact congrArg List.sum (List.map_congr_left fun t _ => tree_phi_sum fv t)
  rw [hsum, margin_eq_sum]
  ring

/-! ## C5: the explanation formatter -/

lemma entryLE_trans (a b c : ExplEntry) :
    entryLE a b = true → entryLE b c = true → entryLE a c = true := by
  simp only [entryLE, decide_eq_true_eq]
  rintro (h1 | ⟨h1e, h1i⟩) (h2 | ⟨h2e, h2i⟩)
  · exact Or.inl (lt_trans h2 h1)
  · exact Or.inl (h2e ▸ h1)
  · exact Or.inl (h1e.symm ▸ h2)
  · exact Or.inr ⟨h1e.trans h2e, le_trans h1i h2i⟩

lemma entryLE_total (a b : ExplEntry) : (entryLE a b || entryLE b a) = true := by
  simp only [entryLE, Bool.or_eq_true, decide_eq_true_eq]
  rcases lt_trichotomy |a.contribution| |b.contribution| with h | h | h
  · exact Or.inr (Or.inl h)
  · rcases le_total a.idx b.idx with hi | hi
    · exact Or.inl (Or.inr ⟨h, hi⟩)
    · exact Or.inr (Or.inr ⟨h.symm, hi⟩)
  · exact Or.inl (Or.inl h)

/-- C5: for a full attribution over the 5 features the formatted
explanation has exactly 5 entries, is sorted by descending absolute
contribution with ties broken by feature declaration order, each entry's
relative impact is `|contribution| / Σ|contributions| * 100` (0 for every
entry when all contributions are zero), and the percentages sum to exactly
100 when some contribution is non-zero. -/
theorem format_spec :
    ∀ (fv : FeatureVector) (c : Fin 5 → ℚ),
      (format fv c).length = 5
      ∧ List.Pairwise (fun a b => entryLE a b = true) (format fv c)
      ∧ (∀ x ∈ format fv c,
          x.impactPct = if (∑ i, |c i|) = 0 then 0
            else |x.contribution| / (∑ i, |c i|) * 100)
      ∧ ((∀ i, c i = 0) → ∀ x ∈ format fv c, x.impactPct = 0)
      ∧ ((∃ i, c i ≠ 0)
          → ((format fv c).map ExplEntry.impactPct).sum = 100) := by
  intro fv c
  have hform : ∀ x ∈ format fv c,
      x.impactPct = if (∑ i, |c i|) = 0 then 0
        else |x.contribution| / (∑ i, |c i|) * 100 := by
    intro x hx
    rw [format, List.mem_mergeSort] at hx
    obtain ⟨i, -, rfl⟩ := List.mem_map.1 hx
    rfl
  refine ⟨?_, ?_, hform, ?_, ?_⟩
  · rw [format, List.length_mergeSort, List.length_map, List.length_finRange]
  · exact List.sorted_mergeSort entryLE_trans entryLE_total _
  · intro hc x hx
    rw [hform x hx, if_pos (by simp [hc])]
  · rintro ⟨i0, hi0⟩
    have hT : (∑ i, |c i|) ≠ 0 := by
      intro h0
      have hz := (Finset.sum_eq_zero_iff_of_nonneg
        (fun j _ => abs_nonneg (c j))).1 h0
      exact hi0 (abs_eq_zero.1 (hz i0 (Finset.mem_univ i0)))
    rw [format]
    rw [List.Perm.sum_eq (List.Perm.map ExplEntry.impactPct
      (List.mergeSort_perm _ entryLE))]
    rw [List.map_map]
    have hmap : (ExplEntry.impactPct ∘ fun i =>
        ({ idx := i, value := fv.get i, contribution := c i,
           impactPct := if (∑ j, |c j|) = 0 then 0
             else |c i| / (∑ j, |c j|) * 100 : ExplEntry }))
        = fun i : Fin 5 => |c i| / (∑ j, |c j|) * 100 := by
      funext i
      simp [Function.comp, if_neg hT]
    rw [hmap, ← Fin.sum_univ_def (fun i : Fin 5 => |c i| / (∑ j, |c j|) * 100)]
    simp only [div_mul_eq_mul_div]
    rw [← Finset.sum_div, ← Finset.sum_mul, mul_comm, mul_div_assoc,
      div_self hT, mul_one]

/-! ## C8: graceful degradation of the scoring entry point -/

/-- C8: `scoreUrl` fails only on an empty URL (`InvalidInput`); every
non-empty URL produces a `RiskResult`; with no loaded model it routes
through the FallbackScorer transparently, and a reputation timeout or
transport failure degrades to the `unknown` verdict leaving the model
score unchanged. -/
theorem scoreUrl_spec :
    ∀ (model : Option Ensemble) (rep : RepOutcome) (url : String),
      (scoreUrl model rep url = .error .invalidInput ↔ url = "")
      ∧ (url ≠ "" → ∃ r : RiskResult, scoreUrl model rep url = .ok r)
      ∧ (url ≠ "" → ∃ r : RiskResult, scoreUrl none rep url = .ok r
          ∧ r.modelScore = (FallbackScorer.score (extract url)).1)
      ∧ ((rep = .timeout ∨ rep = .transportError) → url ≠ "" →
          ∃ r : RiskResult, scoreUrl model rep url = .ok r
            ∧ r.verdict = .unknown
            ∧ r.finalScore = modelScoreOf model (extract url)) := by
  intro model rep url
  refine ⟨?_, ?_, ?_, ?_⟩
  · unfold scoreUrl
    split_ifs with h
    · simp [h]
    · simp [h]
  · intro h
    unfold scoreUrl
    rw [if_neg h]
    exact ⟨_, rfl⟩
  · intro h
    unfold scoreUrl
    rw [if_neg h]
    exact ⟨_, rfl, rfl⟩
  · rintro (rfl | rfl) h <;>
      (unfold scoreUrl; rw [if_neg h]; exact ⟨_, rfl, rfl, rfl⟩)

end PhishGuard
